import Mathlib

/-!
Verification of the task model of `habitica_planner` (`habitica_planner/planner.py`).

The source builds a recursive `Task` tree from a YAML document (a nested
structure of strings, numbers, sequences and single-key mappings), serializes
it back (`Task.__iter__`), checks whether it was ever pushed (`Task.is_new`)
and pushes it to the remote service (`Task.push`).

We embed the YAML value space as `Val`, the task entity as `Task`, and the
operations as executable functions translated statement-by-statement from the
Python source.  The remote service client (habitipy) is an external
collaborator and is modelled from the spec (section 6).
-/

set_option maxHeartbeats 1000000

namespace Planner

/-- A decoded YAML value as `Task.__init__` consumes it: a text scalar, a
number (`int`/`float`, embedded as `ℚ`), a sequence, or a mapping with string
keys.  This is the generic nested value produced by the document codec. -/
inductive Val where
  | str (s : String)
  | num (q : ℚ)
  | vlist (l : List Val)
  | vmap (entries : List (String × Val))
deriving Repr

/-- Python truthiness of a `Val` (`if val:`): empty strings, zero and empty
containers are falsy. -/
def Val.truthy : Val → Bool
  | .str s => s != ""
  | .num q => q != 0
  | .vlist l => !l.isEmpty
  | .vmap m => !m.isEmpty

/-- Truthiness of an optional attribute (`None` is falsy). -/
def optTruthy : Option Val → Bool
  | none => false
  | some v => v.truthy

/-- Truthiness of the `name` attribute (`None` or `''` is falsy); returns the
name when truthy. -/
def truthyName : Option String → Option String
  | none => none
  | some s => if s = "" then none else some s

mutual
/-- Boolean equality on `Val` (Python `==` restricted to the shapes above). -/
def valBEq : Val → Val → Bool
  | .str a, .str b => a = b
  | .num a, .num b => a = b
  | .vlist a, .vlist b => valListBEq a b
  | .vmap a, .vmap b => valMapBEq a b
  | _, _ => false

def valListBEq : List Val → List Val → Bool
  | [], [] => true
  | a :: l, b :: m => valBEq a b && valListBEq l m
  | _, _ => false

def valMapBEq : List (String × Val) → List (String × Val) → Bool
  | [], [] => true
  | (k, v) :: l, (k2, v2) :: m => k = k2 && valBEq v v2 && valMapBEq l m
  | _, _ => false
end

/-- One task node, with the attributes set up by `Task.__init__`:
`self.name`, `self.priority`, `self.checklist`, `self.id`,
`self.checklist_id`.  `priority` is kept as a `Val` because the source assigns
it dynamically (`self.priority = data`). -/
inductive Task where
  | mk (name : Option String) (priority : Val) (checklist : List Task)
       (id : Option Val) (checklist_id : Option Val)
deriving Repr

def Task.name : Task → Option String
  | .mk n _ _ _ _ => n

def Task.priority : Task → Val
  | .mk _ p _ _ _ => p

def Task.checklist : Task → List Task
  | .mk _ _ c _ _ => c

def Task.id : Task → Option Val
  | .mk _ _ _ i _ => i

def Task.checklist_id : Task → Option Val
  | .mk _ _ _ _ c => c

def Task.setPriority : Task → Val → Task
  | .mk n _ c i ci, p => .mk n p c i ci

def Task.addChild : Task → Task → Task
  | .mk n p c i ci, t => .mk n p (c ++ [t]) i ci

def Task.setId : Task → Option Val → Task
  | .mk n p c _ ci, i => .mk n p c i ci

def Task.setChecklistId : Task → Option Val → Task
  | .mk n p c i _, ci => .mk n p c i ci

def Task.setChecklist : Task → List Task → Task
  | .mk n p _ i ci, c => .mk n p c i ci

mutual
/-- Number of task nodes in a tree (a measure used for termination; it is
independent of the identifier fields). -/
def Task.nodes : Task → Nat
  | .mk _ _ c _ _ => 1 + Task.nodesList c

def Task.nodesList : List Task → Nat
  | [] => 0
  | t :: ts => Task.nodes t + Task.nodesList ts
end

/-- The construction-time errors of `Task.__init__` (all raised as
`ValueError` in the source): a mapping with other than one key
("Strange dict from YAML parser"), an invalid priority, and a single-key
mapping whose value has an unexpected type. -/
inductive InitErr where
  | malformed (e : Val)
  | invalidPriority (name : Option String) (v : Val)
  | unexpectedType (e : Val)
deriving Repr

/-- The priority whitelist test `e[k] in [0.5, 1, 1.5, 2]` of the source.
Only numbers can compare equal to those literals. -/
def isValidPriority : Val → Bool
  | .num q => q = (0.5 : ℚ) || q = 1 || q = (1.5 : ℚ) || q = 2
  | _ => false

/-- `Task(e)` for a plain string element `e`: `data` keeps its default `1.0`,
which is not a list, so the constructor sets `self.priority = 1.0` and loops
over no elements. -/
def Task.leaf (s : String) : Task := .mk (some s) (.num 1) [] none none

mutual
/-- `Task.__init__(self, name, data)`: if `data` is not a list it becomes the
priority and the element loop runs over nothing; otherwise the elements are
folded over the partially-built task by `Task.initLoop`. -/
def Task.init (name : Option String) (data : Val) : Except InitErr Task :=
  match data with
  | .vlist l => Task.initLoop (.mk name (.num 1) [] none none) l
  | d => .ok (.mk name d [] none none)
termination_by structural data

/-- The `for e in data:` loop of `Task.__init__`, threading the partially
built task `self`:
* a string `e` appends the childless child `Task(e)`;
* a dict with other than one key raises;
* key `priority` validates `e[k]` against `[0.5, 1, 1.5, 2]` and sets
  `self.priority` (raising `InvalidPriority` otherwise), then continues;
* keys `id`/`checklist_id` store `e[k]` on the corresponding attribute
  (`setattr`), falling through to the value-type check;
* a list or number value appends the child `Task(k, e[k])`;
* any other single-key value raises "Unexpected element type";
* an element that is neither a string nor a dict is silently skipped. -/
def Task.initLoop (self : Task) (l : List Val) : Except InitErr Task :=
  match l with
  | [] => .ok self
  | e :: rest =>
    match e with
    | .str s => Task.initLoop (self.addChild (Task.leaf s)) rest
    | .vmap [(k, v)] =>
      if k = "priority" then
        if isValidPriority v then Task.initLoop (self.setPriority v) rest
        else .error (.invalidPriority self.name v)
      else
        let self1 := if k = "id" then self.setId (some v)
          else if k = "checklist_id" then self.setChecklistId (some v) else self
        match v with
        | .vlist m =>
          match Task.init (some k) (.vlist m) with
          | .ok c => Task.initLoop (self1.addChild c) rest
          | .error err => .error err
        | .num q =>
          match Task.init (some k) (.num q) with
          | .ok c => Task.initLoop (self1.addChild c) rest
          | .error err => .error err
        | _ => .error (.unexpectedType e)
    | .vmap _ => .error (.malformed e)
    | _ => Task.initLoop self rest
termination_by structural l
end


example :
    Task.init none (.vlist [.str "a", .vmap [("b", .num 2)]]) =
      .ok (.mk none (.num 1) [Task.leaf "a", .mk (some "b") (.num 2) [] none none]
        none none) := by
  rfl

/-- One property entry `{prop: val}` yielded by `Task.__iter__` for an
identifier attribute, guarded by Python truthiness (`if val:`). -/
def propEntry (key : String) : Option Val → List Val
  | some v => if v.truthy then [.vmap [(key, v)]] else []
  | none => []

/-- The `{'priority': val}` entry yielded by `Task.__iter__`, guarded by
truthiness of the priority value. -/
def priorityEntryOf (v : Val) : List Val :=
  if v.truthy then [.vmap [("priority", v)]] else []

mutual
/-- `Task.__iter__` (what `list(task)` produces): for a truthy name, the
truthy attributes `id`, `checklist_id`, `priority`, each as its own
single-key mapping, then `{task.name: list(task)}` for every truthy-named
child, in checklist order. -/
def Task.toList (t : Task) : List Val :=
  match t with
  | .mk n p c i ci =>
    (match truthyName n with
     | some _ => propEntry "id" i ++ propEntry "checklist_id" ci ++ priorityEntryOf p
     | none => []) ++ Task.childEntries c
termination_by structural t

/-- The `for task in self.checklist:` part of `Task.__iter__`. -/
def Task.childEntries (l : List Task) : List Val :=
  match l with
  | [] => []
  | c :: r =>
    (match truthyName c.name with
     | some s => [Val.vmap [(s, .vlist (Task.toList c))]]
     | none => []) ++ Task.childEntries r
termination_by structural l
end

/-- The runtime error raised by `Task.is_new`. -/
inductive RunErr where
  | attributeError
deriving Repr

/-- `self.checklists`: `Task.__init__` never sets an attribute of this name
(the children live in `self.checklist`), so in Python this dynamic attribute
lookup raises `AttributeError`. -/
def Task.checklists (_ : Task) : Except RunErr (List Task) :=
  .error .attributeError

/-- `Task.is_new`: computes the local flag `n`
(`self.name and self.id is None` for a truthy name, `True` otherwise), then
iterates `self.checklists`.  That attribute does not exist, so every call
raises `AttributeError` before the loop body (which would recurse into the
children) can run; the `.ok` branch below is unreachable. -/
def Task.is_new (t : Task) : Except RunErr Bool :=
  let n : Bool := match truthyName t.name with
    | some _ => t.id.isNone
    | none => true
  match t.checklists with
  | .error e => .error e
  | .ok _ => .ok n

/-- An outbound call to the remote service, in the order issued. -/
inductive Call where
  | createTask (text : String) (note : String) (priority : Val)
  | createChecklistItem (taskId : String) (text : String)
deriving Repr

/-- The display text suffix `'  ![progress](http://progressed.io/bar/0 "progress")'`
appended to the task name in `Task.push`. -/
def progressMark : String := "  ![progress](http://progressed.io/bar/0 \"progress\")"

/-- The static note posted with every created task.  In the source the
triple-quoted literal is passed through `dedent` (a no-op, since its first
line has no indentation) and `replace('\n', ' ')`, leaving each line's
original 12-space indentation behind a joining space. -/
def pushNote : String :=
  "Please, do not edit this by hand!             Update the YAML file you got from first upload and fix everything there,             then run `habitica_planner update` to push new values to server."

/-- A remote-call failure surfaced during push (unknown task id, or a missing
position in the returned checklist — Python `KeyError`/`IndexError`). -/
inductive PushErr where
  | badResp
deriving Repr

/-- Modelled from the spec: the state of the Remote Service Client
collaborator (section 6), which is not part of this repository.  It hands out
fresh identifiers from a counter and keeps, per created task, the ordered
checklist of item identifiers created under it. -/
structure ApiSt where
  ctr : Nat
  items : List (String × List String)
deriving Repr

/-- The identifier the modelled service returns for its `n`-th creation. -/
def idString (n : Nat) : String := "srv-id-" ++ toString n

def lookupItems : List (String × List String) → String → Option (List String)
  | [], _ => none
  | (k, v) :: r, key => if k = key then some v else lookupItems r key

def setItems : List (String × List String) → String → List String → List (String × List String)
  | [], key, v => [(key, v)]
  | (k, w) :: r, key, v => if k = key then (key, v) :: r else (k, w) :: setItems r key v

/-- Modelled from the spec: `createTask(text, notes, priority) -> {id: string}`
registers a new remote task with an empty checklist and returns its fresh
identifier. -/
def apiCreateTask (st : ApiSt) : String × ApiSt :=
  (idString st.ctr, ⟨st.ctr + 1, setItems st.items (idString st.ctr) []⟩)

/-- Modelled from the spec:
`createChecklistItem(taskId, text) -> {checklist: sequence of {id: string}, indexed by position}`
appends a fresh item to the task's checklist and returns the updated
checklist; `none` models the remote failure for an unknown `taskId`. -/
def apiCreateItem (st : ApiSt) (taskId : String) : Option (List String) × ApiSt :=
  match lookupItems st.items taskId with
  | none => (none, st)
  | some l =>
    (some (l ++ [idString st.ctr]),
     ⟨st.ctr + 1, setItems st.items taskId (l ++ [idString st.ctr])⟩)

/-- Modelled from the spec: the returned checklist is "indexed by position",
the item created as the checklist's `n`-th item sitting at position `n`
(section 4.2 numbers the items `1..k` by position). -/
def byPosition (l : List String) (p : Nat) : Option String := l.get? (p - 1)

/-- The inner loop of `Task.push` over `self.checklist`: for every truthy-named
child the counter `task_number` is incremented, `createChecklistItem` is
posted, and `resp['checklist'][task_number]['id']` is stored into the child's
`checklist_id`.  Children with falsy names are passed over.  The issued calls
are returned even when a lookup fails (the Python exception propagates after
the call was made). -/
def pushChecklist (tid : String) (cs : List Task) (tn : Nat) (st : ApiSt) :
    Except PushErr (List Task × ApiSt) × List Call :=
  match cs with
  | [] => (.ok ([], st), [])
  | c :: rest =>
    match truthyName c.name with
    | some nm =>
      let tn1 := tn + 1
      match apiCreateItem st tid with
      | (none, _) => (.error .badResp, [.createChecklistItem tid nm])
      | (some resp, st1) =>
        match byPosition resp tn1 with
        | none => (.error .badResp, [.createChecklistItem tid nm])
        | some iid =>
          match pushChecklist tid rest tn1 st1 with
          | (.ok (ks, st2), calls) =>
            (.ok (c.setChecklistId (some (.str iid)) :: ks, st2),
             Call.createChecklistItem tid nm :: calls)
          | (.error err, calls) =>
            (.error err, Call.createChecklistItem tid nm :: calls)
    | none =>
      match pushChecklist tid rest tn st with
      | (.ok (ks, st2), calls) => (.ok (c :: ks, st2), calls)
      | (.error err, calls) => (.error err, calls)

theorem Task.nodes_setChecklistId (c : Task) (x : Option Val) :
    Task.nodes (c.setChecklistId x) = Task.nodes c := by
  cases c; rfl

theorem pushChecklist_nodesList (tid : String) (cs : List Task) (tn : Nat)
    (st : ApiSt) (ks : List Task) (st2 : ApiSt) (calls : List Call)
    (h : pushChecklist tid cs tn st = (.ok (ks, st2), calls)) :
    Task.nodesList ks = Task.nodesList cs := by
  induction cs generalizing tn st ks st2 calls with
  | nil =>
    simp only [pushChecklist] at h
    cases h
    rfl
  | cons c rest ih =>
    rw [pushChecklist] at h
    cases hn : truthyName c.name with
    | none =>
      rcases hrec : pushChecklist tid rest tn st with ⟨err | ⟨ks2, st3⟩, calls2⟩ <;>
        simp only [hn, hrec] at h <;> simp at h
      obtain ⟨⟨h1, h2⟩, h3⟩ := h
      subst h1
      simp [Task.nodesList, ih _ _ _ _ _ hrec]
    | some nm =>
      rcases hci : apiCreateItem st tid with ⟨- | resp, st1⟩
      · simp only [hn, hci] at h
        simp at h
      rcases hbp : byPosition resp (tn + 1) with - | iid
      · simp only [hn, hci, hbp] at h
        simp at h
      rcases hrec : pushChecklist tid rest (tn + 1) st1 with ⟨err | ⟨ks2, st3⟩, calls2⟩ <;>
        simp only [hn, hci, hbp, hrec] at h <;> simp at h
      obtain ⟨⟨h1, h2⟩, h3⟩ := h
      subst h1
      simp [Task.nodesList, Task.nodes_setChecklistId, ih _ _ _ _ _ hrec]

theorem Task.checklist_setChecklist (t : Task) (ks : List Task) :
    (t.setChecklist ks).checklist = ks := by
  cases t; rfl

theorem Task.checklist_setId (t : Task) (i : Option Val) :
    (t.setId i).checklist = t.checklist := by
  cases t; rfl

theorem Task.nodes_eq (t : Task) : t.nodes = 1 + Task.nodesList t.checklist := by
  cases t; rfl

theorem Task.nodes_pos (t : Task) : 1 ≤ t.nodes := by
  rw [Task.nodes_eq]; omega

mutual
/-- `Task.push(self, api)`: for a truthy name, post the todo (name plus the
static progress marker and note, priority sent along), store the returned
identifier into `self.id`, then run the checklist-item loop over the (now
partially mutated) children; afterwards — name or not — recurse with `push`
into every child in order.  The second component is the exact sequence of
outbound calls, kept also when a remote interaction fails mid-walk. -/
def Task.push (t : Task) (st : ApiSt) : Except PushErr (Task × ApiSt) × List Call :=
  match truthyName t.name with
  | some n =>
    let text := n ++ progressMark
    let (tid, st1) := apiCreateTask st
    let t1 := t.setId (some (.str tid))
    match hcl : pushChecklist tid t1.checklist 0 st1 with
    | (.ok (ks, st2), icalls) =>
      let t2 := t1.setChecklist ks
      match Task.pushAll t2.checklist st2 with
      | (.ok (ks2, st3), rcalls) =>
        (.ok (t2.setChecklist ks2, st3),
         Call.createTask text pushNote t.priority :: (icalls ++ rcalls))
      | (.error err, rcalls) =>
        (.error err, Call.createTask text pushNote t.priority :: (icalls ++ rcalls))
    | (.error err, icalls) =>
      (.error err, Call.createTask text pushNote t.priority :: icalls)
  | none =>
    match Task.pushAll t.checklist st with
    | (.ok (ks2, st3), rcalls) => (.ok (t.setChecklist ks2, st3), rcalls)
    | (.error err, rcalls) => (.error err, rcalls)
termination_by 2 * Task.nodes t
decreasing_by
· have hk := pushChecklist_nodesList _ _ _ _ _ _ _ hcl
  rw [Task.checklist_setId] at hk
  rw [Task.checklist_setChecklist, Task.nodes_eq]
  omega
· rw [Task.nodes_eq]
  omega

/-- The trailing `for task in Progress(self.checklist): task.push(api)` loop
(`Progress` only draws a progress bar), threading the service state and
stopping at the first failure, as the Python exception would. -/
def Task.pushAll (ts : List Task) (st : ApiSt) : Except PushErr (List Task × ApiSt) × List Call :=
  match ts with
  | [] => (.ok ([], st), [])
  | t :: rest =>
    match Task.push t st with
    | (.ok (t2, st2), calls) =>
      match Task.pushAll rest st2 with
      | (.ok (ks, st3), calls2) => (.ok (t2 :: ks, st3), calls ++ calls2)
      | (.error err, calls2) => (.error err, calls ++ calls2)
    | (.error err, calls) => (.error err, calls)
termination_by 2 * Task.nodesList ts + 1
decreasing_by
· have := Task.nodes_pos t
  simp only [Task.nodesList]
  omega
· simp only [Task.nodesList]
  have := Task.nodes_pos t
  omega
end

mutual
/-- Structural equality in the sense of the round-trip property: same names,
same priorities, same child order and children count; the identifier fields
are not compared. -/
def structEq : Task → Task → Bool
  | .mk n1 p1 c1 _ _, .mk n2 p2 c2 _ _ =>
    n1 == n2 && valBEq p1 p2 && structEqList c1 c2

def structEqList : List Task → List Task → Bool
  | [], [] => true
  | a :: l, b :: m => structEq a b && structEqList l m
  | _, _ => false
end

/-- Equality on optional values (absent/present and value). -/
def optValBEq : Option Val → Option Val → Bool
  | none, none => true
  | some a, some b => valBEq a b
  | _, _ => false

/-- An identifier field evolves monotonically: it is unchanged, or it goes
from absent to present.  This is "set at most once, never reset to absent or
overwritten" for a single step. -/
def optValMono (a b : Option Val) : Bool :=
  optValBEq a b || (a.isNone && b.isSome)

mutual
/-- The frame property of a push step: names, priorities and the checklist
structure agree, and each identifier field is either unchanged or freshly
set. -/
def frameOkB : Task → Task → Bool
  | .mk n1 p1 c1 i1 ci1, .mk n2 p2 c2 i2 ci2 =>
    n1 == n2 && valBEq p1 p2 && optValMono i1 i2 && optValMono ci1 ci2 &&
      frameOkList c1 c2

def frameOkList : List Task → List Task → Bool
  | [], [] => true
  | a :: l, b :: m => frameOkB a b && frameOkList l m
  | _, _ => false
end

mutual
/-- No task in the tree has a remote identifier yet: every `id` is absent,
and every non-root task's `checklist_id` is absent (the root's own
`checklist_id` would have been written by a parent, which it has none). -/
def idsFresh : Task → Bool
  | .mk _ _ cl i _ => i.isNone && idsFreshKids cl

def idsFreshKids : List Task → Bool
  | [] => true
  | c :: r => c.checklist_id.isNone && idsFresh c && idsFreshKids r
end

/-- The `createChecklistItem` calls the checklist-item loop issues for a
children list: one per truthy-named child, in order. -/
def itemCallList (tid : String) : List Task → List Call
  | [] => []
  | c :: r =>
    (match truthyName c.name with
     | some nm => [Call.createChecklistItem tid nm]
     | none => []) ++ itemCallList tid r

/-- The expected effect of the checklist-item loop on the children: the
`n`-th truthy-named child receives the identifier the service creates for
the `n`-th posted item (counting from `ctr`); other children are untouched. -/
def assignItems (ctr : Nat) : List Task → List Task
  | [] => []
  | c :: r =>
    match truthyName c.name with
    | some _ => c.setChecklistId (some (.str (idString ctr))) :: assignItems (ctr + 1) r
    | none => c :: assignItems ctr r

/-- Number of `createTask` calls in a trace. -/
def countCreates : List Call → Nat
  | [] => 0
  | .createTask _ _ _ :: r => 1 + countCreates r
  | .createChecklistItem _ _ :: r => countCreates r

/-- The values of the `{'priority': v}` entries of a data list, in order. -/
def priorityValuesOf : List Val → List Val
  | [] => []
  | .vmap [("priority", v)] :: r => v :: priorityValuesOf r
  | _ :: r => priorityValuesOf r

/-- Whether an element of a data list makes `Task.__init__` append a child:
a string, or a single-key mapping other than `priority` whose value is a
list or a number. -/
def isChildElement : Val → Bool
  | .str _ => true
  | .vmap [(k, v)] =>
    !(k == "priority") &&
      (match v with
       | .vlist _ => true
       | .num _ => true
       | _ => false)
  | _ => false

/-- Number of child-producing elements of a data list. -/
def childCount (l : List Val) : Nat := l.countP (fun e => isChildElement e)

/-- An element `Task.__init__` silently skips: neither a string nor a
mapping (a bare number or a nested sequence). -/
def isSkippable : Val → Bool
  | .num _ => true
  | .vlist _ => true
  | _ => false

mutual
theorem valBEq_refl : (v : Val) → valBEq v v = true
  | .str s => by simp [valBEq]
  | .num q => by simp [valBEq]
  | .vlist l => by simp [valBEq, valListBEq_refl l]
  | .vmap m => by simp [valBEq, valMapBEq_refl m]

theorem valListBEq_refl : (l : List Val) → valListBEq l l = true
  | [] => rfl
  | v :: l => by simp [valListBEq, valBEq_refl v, valListBEq_refl l]

theorem valMapBEq_refl : (m : List (String × Val)) → valMapBEq m m = true
  | [] => rfl
  | (k, v) :: m => by simp [valMapBEq, valBEq_refl v, valMapBEq_refl m]
end

mutual
theorem valBEq_eq : (v w : Val) → valBEq v w = true → v = w
  | .str a, .str b => by simp [valBEq]
  | .str _, .num _ | .str _, .vlist _ | .str _, .vmap _ => by simp [valBEq]
  | .num a, .num b => by simp [valBEq]
  | .num _, .str _ | .num _, .vlist _ | .num _, .vmap _ => by simp [valBEq]
  | .vlist a, .vlist b => by
    intro h
    simp only [valBEq] at h
    rw [valListBEq_eq a b h]
  | .vlist _, .str _ | .vlist _, .num _ | .vlist _, .vmap _ => by simp [valBEq]
  | .vmap a, .vmap b => by
    intro h
    simp only [valBEq] at h
    rw [valMapBEq_eq a b h]
  | .vmap _, .str _ | .vmap _, .num _ | .vmap _, .vlist _ => by simp [valBEq]

theorem valListBEq_eq : (l m : List Val) → valListBEq l m = true → l = m
  | [], [] => by simp
  | [], _ :: _ | _ :: _, [] => by simp [valListBEq]
  | a :: l, b :: m => by
    intro h
    simp only [valListBEq, Bool.and_eq_true] at h
    rw [valBEq_eq a b h.1, valListBEq_eq l m h.2]

theorem valMapBEq_eq : (l m : List (String × Val)) → valMapBEq l m = true → l = m
  | [], [] => by simp
  | [], _ :: _ | _ :: _, [] => by simp [valMapBEq]
  | (k, v) :: l, (k2, v2) :: m => by
    intro h
    simp only [valMapBEq, Bool.and_eq_true] at h
    rw [valBEq_eq v v2 h.1.2, valMapBEq_eq l m h.2]
    simp [decide_eq_true_eq.mp h.1.1]
end

mutual
theorem structEq_refl : (t : Task) → structEq t t = true
  | .mk n p c i ci => by simp [structEq, valBEq_refl p, structEqList_refl c]

theorem structEqList_refl : (l : List Task) → structEqList l l = true
  | [] => rfl
  | t :: l => by simp [structEqList, structEq_refl t, structEqList_refl l]
end

mutual
theorem frameOkB_refl : (t : Task) → frameOkB t t = true
  | .mk n p c i ci => by
    simp [frameOkB, valBEq_refl p, frameOkList_refl c, optValMono, optValBEq,
      Bool.or_eq_true]
    cases i <;> cases ci <;> simp [optValBEq, valBEq_refl]

theorem frameOkList_refl : (l : List Task) → frameOkList l l = true
  | [] => rfl
  | t :: l => by simp [frameOkList, frameOkB_refl t, frameOkList_refl l]
end

/-- C2: the newness check cannot behave as claimed: `Task.is_new` iterates
`self.checklists`, an attribute `Task` never defines, so even a freshly
parsed tree with no identifier entries raises `AttributeError` instead of
returning `True`. -/
theorem is_new_raises_on_fresh_parse :
    Task.init none (.vlist [.str "x"]) =
      .ok (.mk none (.num 1) [Task.leaf "x"] none none) ∧
    (Task.mk none (.num 1) [Task.leaf "x"] none none).is_new =
      .error .attributeError :=
  ⟨rfl, rfl⟩

/-- C4: parsing a single-key mapping whose key is `id` or `checklist_id` and
whose value is a string scalar records the value on the identifier attribute
but then falls through the `isinstance(e[k], (list, int, float))` test and
raises `ValueError` ("Unexpected element type") — although such entries are
exactly what re-reading a previously pushed document produces. -/
theorem init_raises_on_string_id_entry :
    Task.init none (.vlist [.vmap [("id", .str "abc")]]) =
      .error (.unexpectedType (.vmap [("id", .str "abc")])) ∧
    Task.init none (.vlist [.vmap [("checklist_id", .str "abc")]]) =
      .error (.unexpectedType (.vmap [("checklist_id", .str "abc")])) :=
  ⟨rfl, rfl⟩

/-- C3 (counterexample): a scalar value in place of a subtask sequence is
assigned as the child's priority without any validation: `{'x': 3}`
constructs successfully with priority `3` instead of failing with
`InvalidPriority`. -/
theorem scalar_priority_entry_not_validated :
    Task.init none (.vlist [.vmap [("x", .num 3)]]) =
      .ok (.mk none (.num 1) [.mk (some "x") (.num 3) [] none none] none none) :=
  rfl

/-- C3 (amended): a `{'priority': p}` mapping entry is validated against
`{0.5, 1, 1.5, 2}` — an invalid value raises `InvalidPriority`, a valid one
sets the task's priority to `p` — while a scalar value in place of a subtask
sequence (`{name: p}`) is stored as the child's priority unvalidated, for
every numeric `p`. -/
theorem priority_validation (p : ℚ) (nm : Option String) :
    ((p = 0.5 ∨ p = 1 ∨ p = 1.5 ∨ p = 2) →
      Task.init nm (.vlist [.vmap [("priority", .num p)]]) =
        .ok (.mk nm (.num p) [] none none)) ∧
    (¬(p = 0.5 ∨ p = 1 ∨ p = 1.5 ∨ p = 2) →
      Task.init nm (.vlist [.vmap [("priority", .num p)]]) =
        .error (.invalidPriority nm (.num p))) ∧
    (∀ s : String, s ≠ "priority" → s ≠ "id" → s ≠ "checklist_id" →
      Task.init nm (.vlist [.vmap [(s, .num p)]]) =
        .ok (.mk nm (.num 1) [.mk (some s) (.num p) [] none none] none none)) := by
  refine ⟨?_, ?_, ?_⟩
  · rintro (rfl | rfl | rfl | rfl) <;>
      simp [Task.init, Task.initLoop, isValidPriority, Task.setPriority]
  · intro h
    have hv : isValidPriority (.num p) = false := by
      simp only [isValidPriority, Bool.or_eq_false_iff, decide_eq_false_iff_not]
      push_neg at h
      exact ⟨⟨⟨h.1, h.2.1⟩, h.2.2.1⟩, h.2.2.2⟩
    simp [Task.init, Task.initLoop, hv, Task.name]
  · intro s h1 h2 h3
    simp [Task.init, Task.initLoop, h1, h2, h3, Task.addChild, Task.leaf]

/-- Concrete check of `priority_validation` at `p = 2`, `p = 3` and a plain
name key. -/
theorem priority_validation_check :
    Task.init none (.vlist [.vmap [("priority", .num 2)]]) =
      .ok (.mk none (.num 2) [] none none) ∧
    Task.init none (.vlist [.vmap [("priority", .num 3)]]) =
      .error (.invalidPriority none (.num 3)) ∧
    Task.init none (.vlist [.vmap [("y", .num 3)]]) =
      .ok (.mk none (.num 1) [.mk (some "y") (.num 3) [] none none] none none) :=
  ⟨(priority_validation 2 none).1 (by norm_num),
   (priority_validation 3 none).2.1 (by norm_num),
   (priority_validation 3 none).2.2 "y" (by decide) (by decide) (by decide)⟩

@[simp] theorem Task.name_setPriority (t : Task) (v : Val) :
    (t.setPriority v).name = t.name := by cases t; rfl
@[simp] theorem Task.priority_setPriority (t : Task) (v : Val) :
    (t.setPriority v).priority = v := by cases t; rfl
@[simp] theorem Task.checklist_setPriority (t : Task) (v : Val) :
    (t.setPriority v).checklist = t.checklist := by cases t; rfl
@[simp] theorem Task.name_addChild (t c : Task) :
    (t.addChild c).name = t.name := by cases t; rfl
@[simp] theorem Task.priority_addChild (t c : Task) :
    (t.addChild c).priority = t.priority := by cases t; rfl
@[simp] theorem Task.checklist_addChild (t c : Task) :
    (t.addChild c).checklist = t.checklist ++ [c] := by cases t; rfl
@[simp] theorem Task.name_setId (t : Task) (x : Option Val) :
    (t.setId x).name = t.name := by cases t; rfl
@[simp] theorem Task.priority_setId (t : Task) (x : Option Val) :
    (t.setId x).priority = t.priority := by cases t; rfl
@[simp] theorem Task.checklist_setId' (t : Task) (x : Option Val) :
    (t.setId x).checklist = t.checklist := by cases t; rfl
@[simp] theorem Task.name_setChecklistId (t : Task) (x : Option Val) :
    (t.setChecklistId x).name = t.name := by cases t; rfl
@[simp] theorem Task.priority_setChecklistId (t : Task) (x : Option Val) :
    (t.setChecklistId x).priority = t.priority := by cases t; rfl
@[simp] theorem Task.checklist_setChecklistId (t : Task) (x : Option Val) :
    (t.setChecklistId x).checklist = t.checklist := by cases t; rfl
@[simp] theorem Task.id_setChecklistId (t : Task) (x : Option Val) :
    (t.setChecklistId x).id = t.id := by cases t; rfl
@[simp] theorem Task.checklist_id_setChecklistId (t : Task) (x : Option Val) :
    (t.setChecklistId x).checklist_id = x := by cases t; rfl
@[simp] theorem Task.setPriority_setPriority (t : Task) (v w : Val) :
    (t.setPriority v).setPriority w = t.setPriority w := by cases t; rfl
@[simp] theorem Task.setPriority_self (t : Task) :
    t.setPriority t.priority = t := by cases t; rfl

/-- The `self1` step of `Task.initLoop` (the possible `setattr` for the keys
`id`/`checklist_id`) never changes name, priority or checklist. -/
theorem initAttr_projections (self : Task) (k : String) (v : Val) :
    (if k = "id" then self.setId (some v)
     else if k = "checklist_id" then self.setChecklistId (some v)
     else self).name = self.name ∧
    (if k = "id" then self.setId (some v)
     else if k = "checklist_id" then self.setChecklistId (some v)
     else self).priority = self.priority ∧
    (if k = "id" then self.setId (some v)
     else if k = "checklist_id" then self.setChecklistId (some v)
     else self).checklist = self.checklist := by
  split <;> [skip; split] <;> simp

theorem initLoop_priority_shape : ∀ (l : List Val) (self t : Task),
    Task.initLoop self l = .ok t →
    t.priority = (priorityValuesOf l).getLastD self.priority ∧
    t.checklist.length = self.checklist.length + childCount l := by
  intro l
  induction l with
  | nil =>
    intro self t h
    simp only [Task.initLoop] at h
    cases h
    simp [priorityValuesOf, childCount]
  | cons e rest ih =>
    intro self t h
    cases e with
    | str s =>
      simp only [Task.initLoop] at h
      obtain ⟨h1, h2⟩ := ih _ _ h
      refine ⟨?_, ?_⟩
      · simpa [priorityValuesOf] using h1
      · simp only [Task.checklist_addChild, List.length_append] at h2
        simp [h2, childCount, List.countP_cons, isChildElement]
        omega
    | num q =>
      simp only [Task.initLoop] at h
      obtain ⟨h1, h2⟩ := ih _ _ h
      refine ⟨?_, ?_⟩
      · simpa [priorityValuesOf] using h1
      · simp [h2, childCount, List.countP_cons, isChildElement]
    | vlist m =>
      simp only [Task.initLoop] at h
      obtain ⟨h1, h2⟩ := ih _ _ h
      refine ⟨?_, ?_⟩
      · simpa [priorityValuesOf] using h1
      · simp [h2, childCount, List.countP_cons, isChildElement]
    | vmap entries =>
      rcases entries with - | ⟨⟨k, v⟩, - | ⟨e2, m2⟩⟩
      · simp [Task.initLoop] at h
      · by_cases hk : k = "priority"
        · subst hk
          by_cases hv : isValidPriority v = true
          · simp only [Task.initLoop, if_pos rfl, hv, if_true] at h
            obtain ⟨h1, h2⟩ := ih _ _ h
            refine ⟨?_, ?_⟩
            · have hpv : priorityValuesOf (Val.vmap [("priority", v)] :: rest) =
                  v :: priorityValuesOf rest := by simp [priorityValuesOf]
              rw [hpv, List.getLastD_cons]
              simpa using h1
            · simp only [Task.checklist_setPriority] at h2
              simp [h2, childCount, List.countP_cons, isChildElement]
          · simp only [Bool.not_eq_true] at hv
            simp [Task.initLoop, hv] at h
        · cases v with
          | vlist m3 =>
            simp only [Task.initLoop, if_neg hk] at h
            rcases hc : Task.init (some k) (.vlist m3) with err | c <;> rw [hc] at h
            · simp at h
            · obtain ⟨h1, h2⟩ := ih _ _ h
              obtain ⟨g1, g2, g3⟩ := initAttr_projections self k (.vlist m3)
              refine ⟨?_, ?_⟩
              · rw [h1, Task.priority_addChild, g2]
                simp [priorityValuesOf, hk]
              · rw [Task.checklist_addChild, g3, List.length_append] at h2
                simp [h2, childCount, List.countP_cons, isChildElement, hk]
                omega
          | num q =>
            simp only [Task.initLoop, if_neg hk] at h
            rcases hc : Task.init (some k) (.num q) with err | c <;> rw [hc] at h
            · simp at h
            · obtain ⟨h1, h2⟩ := ih _ _ h
              obtain ⟨g1, g2, g3⟩ := initAttr_projections self k (.num q)
              refine ⟨?_, ?_⟩
              · rw [h1, Task.priority_addChild, g2]
                simp [priorityValuesOf, hk]
              · rw [Task.checklist_addChild, g3, List.length_append] at h2
                simp [h2, childCount, List.countP_cons, isChildElement, hk]
                omega
          | str s2 => simp [Task.initLoop, if_neg hk] at h
          | vmap m3 => simp [Task.initLoop, if_neg hk] at h
      · simp [Task.initLoop] at h

theorem initLoop_priorities : ∀ (vs : List Val) (self : Task),
    (∀ v ∈ vs, isValidPriority v = true) →
    Task.initLoop self (vs.map fun v => .vmap [("priority", v)]) =
      .ok (self.setPriority (vs.getLastD self.priority)) := by
  intro vs
  induction vs with
  | nil => intro self h; simp [Task.initLoop]
  | cons v vs ih =>
    intro self h
    have hv : isValidPriority v = true := h v (by simp)
    simp only [List.map_cons, Task.initLoop, if_pos rfl, hv, if_true]
    rw [ih _ (fun w hw => h w (by simp [hw]))]
    simp only [Task.setPriority_setPriority, Task.priority_setPriority, List.getLastD_cons]

/-- C9: priority entries overwrite each other in order: if a data list parses
successfully, the task's priority is the value of its last `{'priority': v}`
entry (the default `1.0` when there is none) and those entries create no
children — the checklist has exactly one entry per child-producing element.
A list of several valid priority entries always parses, to a childless task
whose priority is the last entry's value. -/
theorem priority_last_entry_wins :
    (∀ (nm : Option String) (l : List Val) (t : Task),
       Task.init nm (.vlist l) = .ok t →
       t.priority = (priorityValuesOf l).getLastD (.num 1) ∧
       t.checklist.length = childCount l) ∧
    (∀ (nm : Option String) (vs : List Val),
       (∀ v ∈ vs, isValidPriority v = true) →
       Task.init nm (.vlist (vs.map fun v => .vmap [("priority", v)])) =
         .ok ((Task.mk nm (.num 1) [] none none).setPriority (vs.getLastD (.num 1)))) := by
  constructor
  · intro nm l t h
    simp only [Task.init] at h
    simpa [Task.priority, Task.checklist] using initLoop_priority_shape l _ t h
  · intro nm vs h
    simp only [Task.init]
    rw [initLoop_priorities vs _ h]
    rfl

/-- Concrete check of `priority_last_entry_wins`: two priority entries, the
last (`1.5`) wins, and no child is created. -/
theorem priority_last_entry_wins_check :
    ((Task.mk none (.num 1.5) [] none none).priority =
       (priorityValuesOf
         [.vmap [("priority", .num 2)], .vmap [("priority", .num 1.5)]]).getLastD (.num 1) ∧
     (Task.mk none (.num 1.5) [] none none).checklist.length =
       childCount [.vmap [("priority", .num 2)], .vmap [("priority", .num 1.5)]]) ∧
    Task.init none (.vlist ([Val.num 2, Val.num 1.5].map fun v => .vmap [("priority", v)])) =
      .ok ((Task.mk none (.num 1) [] none none).setPriority
        ([Val.num 2, Val.num 1.5].getLastD (.num 1))) :=
  ⟨priority_last_entry_wins.1 none
      [.vmap [("priority", .num 2)], .vmap [("priority", .num 1.5)]]
      (.mk none (.num 1.5) [] none none)
      (by simp [Task.init, Task.initLoop, isValidPriority, Task.setPriority]),
   priority_last_entry_wins.2 none [Val.num 2, Val.num 1.5]
      (by intro v hv; simp at hv; rcases hv with rfl | rfl <;> norm_num [isValidPriority])⟩

theorem initLoop_skipped (self : Task) (e : Val) (rest : List Val)
    (h : isSkippable e = true) :
    Task.initLoop self (e :: rest) = Task.initLoop self rest := by
  cases e <;> simp [isSkippable] at h <;> simp [Task.initLoop]

theorem initLoop_skip_middle : ∀ (pre : List Val) (self : Task) (e : Val) (post : List Val),
    isSkippable e = true →
    Task.initLoop self (pre ++ e :: post) = Task.initLoop self (pre ++ post) := by
  intro pre
  induction pre with
  | nil => intro self e post h; simpa using initLoop_skipped self e post h
  | cons a pre ih =>
    intro self e post h
    cases a with
    | str s =>
      simp only [List.cons_append, Task.initLoop]
      exact ih _ _ _ h
    | num q =>
      simp only [List.cons_append, Task.initLoop]
      exact ih _ _ _ h
    | vlist m =>
      simp only [List.cons_append, Task.initLoop]
      exact ih _ _ _ h
    | vmap entries =>
      rcases entries with - | ⟨⟨k, v⟩, - | ⟨e2, m2⟩⟩
      · simp [List.cons_append, Task.initLoop]
      · by_cases hk : k = "priority"
        · subst hk
          by_cases hv : isValidPriority v = true
          · simp only [List.cons_append, Task.initLoop, if_pos rfl, hv, if_true]
            exact ih _ _ _ h
          · simp only [Bool.not_eq_true] at hv
            simp [List.cons_append, Task.initLoop, hv]
        · cases v with
          | vlist m3 =>
            simp only [List.cons_append, Task.initLoop, if_neg hk]
            rcases hc : Task.init (some k) (.vlist m3) with err | c
            · rfl
            · exact ih _ _ _ h
          | num q =>
            simp only [List.cons_append, Task.initLoop, if_neg hk]
            rcases hc : Task.init (some k) (.num q) with err | c
            · rfl
            · exact ih _ _ _ h
          | str s2 => simp [List.cons_append, Task.initLoop, if_neg hk]
          | vmap m3 => simp [List.cons_append, Task.initLoop, if_neg hk]
      · simp [List.cons_append, Task.initLoop]

/-- C10: a sequence element that is neither a text scalar nor a mapping (a
bare number or a nested sequence) is silently passed over: removing it does
not change the result of construction, and a list of only such elements
parses to the default task with no children and no error. -/
theorem skipped_elements_ignored :
    (∀ (nm : Option String) (pre post : List Val) (e : Val),
       isSkippable e = true →
       Task.init nm (.vlist (pre ++ e :: post)) = Task.init nm (.vlist (pre ++ post))) ∧
    (∀ (nm : Option String) (l : List Val), (∀ e ∈ l, isSkippable e = true) →
       Task.init nm (.vlist l) = .ok (.mk nm (.num 1) [] none none)) := by
  constructor
  · intro nm pre post e h
    simp only [Task.init]
    exact initLoop_skip_middle pre _ e post h
  · intro nm l h
    simp only [Task.init]
    induction l with
    | nil => simp [Task.initLoop]
    | cons e rest ih =>
      rw [initLoop_skipped _ e rest (h e (by simp))]
      exact ih (fun w hw => h w (by simp [hw]))

/-- Concrete check of `skipped_elements_ignored`: a bare number between two
text entries is dropped, and a list of a number and a nested sequence parses
to the empty default task. -/
theorem skipped_elements_ignored_check :
    Task.init none (.vlist [.str "a", .num 7, .str "b"]) =
      Task.init none (.vlist [.str "a", .str "b"]) ∧
    Task.init none (.vlist [.num 7, .vlist [.str "zz"]]) =
      .ok (.mk none (.num 1) [] none none) :=
  ⟨skipped_elements_ignored.1 none [.str "a"] [.str "b"] (.num 7) rfl,
   skipped_elements_ignored.2 none [.num 7, .vlist [.str "zz"]] (by decide)⟩

mutual
/-- The round-trip-safe subtrees: a named task whose name is non-empty and is
not the control key `priority`, whose priority is one of the valid values,
with no identifiers, and whose children all qualify recursively.  (An empty
name is dropped by `Task.__iter__`; a task named `priority` would be re-read
as a priority entry; a present identifier would be re-emitted and — for a
string value — make re-parsing raise.) -/
def goodSub : Task → Bool
  | .mk n p cs i ci =>
    match n with
    | some s =>
      !(s == "") && !(s == "priority") && isValidPriority p &&
        i.isNone && ci.isNone && goodSubList cs
    | none => false

def goodSubList : List Task → Bool
  | [] => true
  | c :: r => goodSub c && goodSubList r
end

/-- A round-trip-safe root: unnamed (as every tree the program builds from a
document is), with the default priority (an unnamed root never re-emits its
priority, so a non-default value would be lost), and round-trip-safe
children. -/
def goodRoot : Task → Bool
  | .mk n p cs _ _ =>
    n.isNone && valBEq p (.num 1) && goodSubList cs

theorem goodSubList_mem {cs : List Task} {c : Task}
    (h : goodSubList cs = true) (hm : c ∈ cs) : goodSub c = true := by
  induction cs with
  | nil => cases hm
  | cons a r ih =>
    simp only [goodSubList, Bool.and_eq_true] at h
    rcases List.mem_cons.mp hm with rfl | hm2
    · exact h.1
    · exact ih h.2 hm2

theorem Task.nodes_mem_le {cs : List Task} {c : Task} (hm : c ∈ cs) :
    c.nodes ≤ Task.nodesList cs := by
  induction cs with
  | nil => cases hm
  | cons a r ih =>
    rcases List.mem_cons.mp hm with rfl | hm2
    · simp [Task.nodesList]
    · have := ih hm2
      simp only [Task.nodesList]
      omega

theorem priority_truthy {v : Val} (h : isValidPriority v = true) :
    v.truthy = true := by
  cases v with
  | num q =>
    simp only [isValidPriority, Bool.or_eq_true, decide_eq_true_eq] at h
    rcases h with ⟨⟨h | h⟩ | h⟩ | h <;> subst h <;> norm_num [Val.truthy]
  | str s => simp [isValidPriority] at h
  | vlist l => simp [isValidPriority] at h
  | vmap m => simp [isValidPriority] at h

theorem truthyName_of_ne {s : String} (h : ¬s = "") :
    truthyName (some s) = some s := by
  simp [truthyName, h]

/-- `list(task)` for a round-trip-safe named task: one priority entry, then
the child entries. -/
theorem toList_goodSub (s : String) (p : Val) (cs : List Task)
    (hs : ¬s = "") (hp : Val.truthy p = true) :
    Task.toList (.mk (some s) p cs none none) =
      .vmap [("priority", p)] :: Task.childEntries cs := by
  simp [Task.toList, truthyName_of_ne hs, propEntry, priorityEntryOf, hp]

theorem goodSub_fields (c : Task) (h : goodSub c = true) :
    ∃ s, c.name = some s ∧ ¬s = "" ∧ ¬s = "priority" ∧
      isValidPriority c.priority = true ∧ c.id = none ∧ c.checklist_id = none ∧
      goodSubList c.checklist = true := by
  obtain ⟨n, p, cs, i, ci⟩ := c
  cases n with
  | none => simp [goodSub] at h
  | some s =>
    simp only [goodSub, Bool.and_eq_true, Bool.not_eq_true', beq_eq_false_iff_ne,
      ne_eq, Option.isNone_iff_eq_none] at h
    obtain ⟨⟨⟨⟨⟨h1, h2⟩, h3⟩, h4⟩, h5⟩, h6⟩ := h
    exact ⟨s, rfl, h1, h2, h3, h4, h5, h6⟩

theorem initLoop_childEntries :
    ∀ (cs : List Task) (self : Task),
      goodSubList cs = true →
      (∀ c ∈ cs, ∀ s, c.name = some s →
        ∃ c2, Task.init (some s) (.vlist c.toList) = .ok c2 ∧ structEq c c2 = true) →
      ∃ cs2 i2 ci2,
        Task.initLoop self (Task.childEntries cs) =
          .ok (.mk self.name self.priority (self.checklist ++ cs2) i2 ci2) ∧
        structEqList cs cs2 = true := by
  intro cs
  induction cs with
  | nil =>
    intro self hg hIH
    refine ⟨[], self.id, self.checklist_id, ?_, rfl⟩
    cases self
    simp [Task.childEntries, Task.initLoop, Task.name, Task.priority, Task.checklist,
      Task.id, Task.checklist_id]
  | cons c r ih =>
    intro self hg hIH
    simp only [goodSubList, Bool.and_eq_true] at hg
    obtain ⟨hgc, hgr⟩ := hg
    obtain ⟨s, hname, hs1, hs2, -, -, -, -⟩ := goodSub_fields c hgc
    obtain ⟨c2, hc2, hsc2⟩ := hIH c (List.mem_cons_self _ _) s hname
    obtain ⟨g1, g2, g3⟩ := initAttr_projections self s (.vlist c.toList)
    simp only [Task.childEntries, hname, truthyName_of_ne hs1, List.singleton_append]
    simp only [Task.initLoop, if_neg hs2]
    rw [hc2]
    dsimp only
    obtain ⟨cs2, i2, ci2, heq, hstr⟩ :=
      ih ((if s = "id" then self.setId (some (.vlist c.toList))
           else if s = "checklist_id" then self.setChecklistId (some (.vlist c.toList))
           else self).addChild c2)
        hgr (fun c' hm s' hn => hIH c' (List.mem_cons_of_mem _ hm) s' hn)
    rw [heq]
    refine ⟨c2 :: cs2, i2, ci2, ?_, ?_⟩
    · rw [Task.name_addChild, g1, Task.priority_addChild, g2, Task.checklist_addChild, g3,
        List.append_assoc, List.singleton_append]
    · simp [structEqList, hsc2, hstr]

theorem roundtrip_sub : ∀ (N : Nat) (c : Task), c.nodes ≤ N → goodSub c = true →
    ∀ s, c.name = some s →
    ∃ c2, Task.init (some s) (.vlist c.toList) = .ok c2 ∧ structEq c c2 = true := by
  intro N
  induction N with
  | zero =>
    intro c hc
    have := Task.nodes_pos c
    omega
  | succ N ih =>
    intro c hc hg s hsn
    obtain ⟨n, p, cs, i, ci⟩ := c
    obtain ⟨s0, hname, hs1, hs2, hs3, hs4, hs5, hs6⟩ := goodSub_fields _ hg
    simp only [Task.name] at hname hsn
    subst hsn
    injection hname with he
    subst he
    simp only [Task.priority] at hs3
    simp only [Task.id] at hs4
    simp only [Task.checklist_id] at hs5
    simp only [Task.checklist] at hs6
    subst hs4
    subst hs5
    have hp : Val.truthy p = true := priority_truthy hs3
    rw [toList_goodSub s p cs hs1 hp]
    simp only [Task.init, Task.initLoop, if_pos rfl, hs3, if_true]
    obtain ⟨cs2, i2, ci2, heq, hstr⟩ :=
      initLoop_childEntries cs ((Task.mk (some s) (.num 1) [] none none).setPriority p)
        hs6
        (by
          intro c' hm s' hn
          have hnb : c'.nodes ≤ N := by
            have h1 := Task.nodes_mem_le hm
            have h2 : Task.nodes (.mk (some s) p cs none none) =
                1 + Task.nodesList cs := Task.nodes_eq _
            simp only [Task.checklist] at h2
            omega
          exact ih c' hnb (goodSubList_mem hs6 hm) s' hn)
    rw [heq]
    refine ⟨_, rfl, ?_⟩
    simp only [Task.setPriority, Task.name, Task.priority, Task.checklist,
      List.nil_append]
    simp [structEq, valBEq_refl, hstr]

/-- C1 (amended): for every Task tree with an unnamed root of default
priority whose descendants all have non-empty names other than `priority`,
valid priorities, and absent identifiers, parsing the output of
serialization (`Task.__init__` applied to `list(task)`) reconstructs a tree
that is structurally equal: same names, same priorities, same child order
and children count. -/
theorem roundtrip_good_root (t : Task) (h : goodRoot t = true) :
    ∃ t2, Task.init none (.vlist t.toList) = .ok t2 ∧ structEq t t2 = true := by
  obtain ⟨n, p, cs, i, ci⟩ := t
  simp only [goodRoot, Bool.and_eq_true, Option.isNone_iff_eq_none] at h
  obtain ⟨⟨hn, hp⟩, hcs⟩ := h
  subst hn
  have htl : Task.toList (.mk none p cs i ci) = Task.childEntries cs := by
    simp [Task.toList, truthyName]
  rw [htl]
  simp only [Task.init]
  obtain ⟨cs2, i2, ci2, heq, hstr⟩ :=
    initLoop_childEntries cs (.mk none (.num 1) [] none none) hcs
      (fun c hm s hn =>
        roundtrip_sub (Task.nodesList cs) c (Task.nodes_mem_le hm)
          (goodSubList_mem hcs hm) s hn)
  rw [heq]
  refine ⟨_, rfl, ?_⟩
  simp only [Task.name, Task.priority, Task.checklist, List.nil_append]
  simp [structEq, hstr, hp]

/-- Concrete check of `roundtrip_good_root` on a two-level tree. -/
theorem roundtrip_good_root_check :
    goodRoot (.mk none (.num 1)
      [.mk (some "a") (.num 2) [Task.leaf "b"] none none] none none) = true ∧
    ∃ t2,
      Task.init none (.vlist (Task.toList (.mk none (.num 1)
        [.mk (some "a") (.num 2) [Task.leaf "b"] none none] none none))) = .ok t2 ∧
      structEq (.mk none (.num 1)
        [.mk (some "a") (.num 2) [Task.leaf "b"] none none] none none) t2 = true :=
  ⟨by
     norm_num [goodRoot, goodSubList, goodSub, isValidPriority, Task.leaf, valBEq]
     decide,
   roundtrip_good_root _
     (by
       norm_num [goodRoot, goodSubList, goodSub, isValidPriority, Task.leaf, valBEq]
       decide)⟩

/-- C1 (counterexample): the document `[{'priority': 2}]` is built purely
from priority entries with no identifiers, yet its parse does not survive a
serialization round trip: the unnamed root does not re-emit its priority, so
re-parsing yields the default priority `1.0` instead of `2`. -/
theorem roundtrip_fails_on_root_priority :
    Task.init none (.vlist [.vmap [("priority", .num 2)]]) =
      .ok (.mk none (.num 2) [] none none) ∧
    Task.init none (.vlist (Task.toList (.mk none (.num 2) [] none none))) =
      .ok (.mk none (.num 1) [] none none) ∧
    structEq (.mk none (.num 2) [] none none) (.mk none (.num 1) [] none none) = false := by
  refine ⟨?_, rfl, ?_⟩
  · simp [Task.init, Task.initLoop, isValidPriority, Task.setPriority]
  · norm_num [structEq, valBEq]

theorem pushChecklist_trace : ∀ (cs : List Task) (tid : String) (tn : Nat) (st : ApiSt),
    ∃ rest, (pushChecklist tid cs tn st).2 ++ rest = itemCallList tid cs := by
  intro cs
  induction cs with
  | nil => intro tid tn st; exact ⟨[], rfl⟩
  | cons c rest ih =>
    intro tid tn st
    rw [pushChecklist]
    cases hn : truthyName c.name with
    | none =>
      rcases hrec : pushChecklist tid rest tn st with ⟨err | ⟨ks2, st3⟩, calls2⟩ <;>
        simp only [hn] <;>
        obtain ⟨r2, hr2⟩ := ih tid tn st <;>
        rw [hrec] at hr2 <;>
        exact ⟨r2, by simpa [itemCallList, hn] using hr2⟩
    | some nm =>
      rcases hci : apiCreateItem st tid with ⟨- | resp, st1⟩
      · exact ⟨itemCallList tid rest, by simp [hn, hci, itemCallList]⟩
      rcases hbp : byPosition resp (tn + 1) with - | iid
      · exact ⟨itemCallList tid rest, by simp [hn, hci, hbp, itemCallList]⟩
      obtain ⟨r2, hr2⟩ := ih tid (tn + 1) st1
      rcases hrec : pushChecklist tid rest (tn + 1) st1 with ⟨err | ⟨ks2, st3⟩, calls2⟩ <;>
        rw [hrec] at hr2 <;>
        exact ⟨r2, by simp only [hn, hci, hbp, hrec]; simpa [itemCallList, hn] using hr2⟩

theorem pushChecklist_structEq : ∀ (cs : List Task) (tid : String) (tn : Nat) (st : ApiSt)
    (ks : List Task) (st2 : ApiSt) (calls : List Call),
    pushChecklist tid cs tn st = (.ok (ks, st2), calls) →
    structEqList cs ks = true := by
  intro cs
  induction cs with
  | nil =>
    intro tid tn st ks st2 calls h
    simp only [pushChecklist] at h
    cases h
    rfl
  | cons c rest ih =>
    intro tid tn st ks st2 calls h
    rw [pushChecklist] at h
    cases hn : truthyName c.name with
    | none =>
      rcases hrec : pushChecklist tid rest tn st with ⟨err | ⟨ks2, st3⟩, calls2⟩ <;>
        simp only [hn, hrec] at h <;> simp at h
      obtain ⟨⟨h1, h2⟩, h3⟩ := h
      subst h1
      simp [structEqList, structEq_refl, ih _ _ _ _ _ _ hrec]
    | some nm =>
      rcases hci : apiCreateItem st tid with ⟨- | resp, st1⟩
      · simp only [hn, hci] at h
        simp at h
      rcases hbp : byPosition resp (tn + 1) with - | iid
      · simp only [hn, hci, hbp] at h
        simp at h
      rcases hrec : pushChecklist tid rest (tn + 1) st1 with ⟨err | ⟨ks2, st3⟩, calls2⟩ <;>
        simp only [hn, hci, hbp, hrec] at h <;> simp at h
      obtain ⟨⟨h1, h2⟩, h3⟩ := h
      subst h1
      have hself : structEq c (c.setChecklistId (some (.str iid))) = true := by
        obtain ⟨n0, p0, c0, i0, ci0⟩ := c
        simp [Task.setChecklistId, structEq, valBEq_refl, structEqList_refl]
      simp [structEqList, hself, ih _ _ _ _ _ _ hrec]

/-- C5: the push walk is pre-order in document order: for every tree and
service state, the call trace of `Task.push` begins (for a truthy-named
task) with that task's own `createTask` call, followed by its
`createChecklistItem` calls — a prefix of the item-call list of its
truthy-named children, in order — followed exactly by the trace of
recursively pushing the (structurally unchanged) children; an unnamed task
contributes only the recursion's calls. -/
theorem push_calls_preorder (t : Task) (st : ApiSt) :
    ∃ items rest recCalls,
      (Task.push t st).2 =
        (match truthyName t.name with
         | some n => Call.createTask (n ++ progressMark) pushNote t.priority :: (items ++ recCalls)
         | none => recCalls) ∧
      items ++ rest = itemCallList (idString st.ctr) t.checklist ∧
      (recCalls = [] ∨ ∃ ts2 st2, structEqList t.checklist ts2 = true ∧
        recCalls = (Task.pushAll ts2 st2).2) := by
  rw [Task.push.eq_def]
  cases hn : truthyName t.name with
  | none =>
    refine ⟨[], itemCallList (idString st.ctr) t.checklist, (Task.pushAll t.checklist st).2,
      ?_, rfl, Or.inr ⟨t.checklist, st, structEqList_refl _, rfl⟩⟩
    rcases hra : Task.pushAll t.checklist st with ⟨res, rcalls⟩
    rcases res with err | ⟨ks2, st3⟩ <;> simp [hn, hra]
  | some n =>
    simp only [hn, apiCreateTask]
    split
    · rename_i ks st2 icalls hpc
      obtain ⟨r2, hr2⟩ := pushChecklist_trace
        (t.setId (some (.str (idString st.ctr)))).checklist (idString st.ctr) 0
        ⟨st.ctr + 1, setItems st.items (idString st.ctr) []⟩
      rw [hpc] at hr2
      rw [Task.checklist_setId'] at hr2
      have hst : structEqList t.checklist ks = true := by
        have h2 := pushChecklist_structEq _ _ _ _ _ _ _ hpc
        rwa [Task.checklist_setId'] at h2
      rcases hpa : Task.pushAll ks st2 with ⟨res2, rcalls⟩
      refine ⟨icalls, r2, rcalls, ?_, hr2, Or.inr ⟨ks, st2, hst, by rw [hpa]⟩⟩
      rcases res2 with err | ⟨ks2, st3⟩ <;>
        simp [Task.checklist_setChecklist, hpa]
    · rename_i err icalls hpc
      obtain ⟨r2, hr2⟩ := pushChecklist_trace
        (t.setId (some (.str (idString st.ctr)))).checklist (idString st.ctr) 0
        ⟨st.ctr + 1, setItems st.items (idString st.ctr) []⟩
      rw [hpc] at hr2
      rw [Task.checklist_setId'] at hr2
      exact ⟨icalls, r2, [], by simp, hr2, Or.inl rfl⟩

theorem lookupItems_setItems (m : List (String × List String)) (k : String)
    (v : List String) : lookupItems (setItems m k v) k = some v := by
  induction m with
  | nil => simp [setItems, lookupItems]
  | cons a r ih =>
    obtain ⟨k2, w⟩ := a
    by_cases h : k2 = k
    · subst h
      simp [setItems, lookupItems]
    · simp [setItems, lookupItems, h, ih]

theorem pushChecklist_assigns_aux :
    ∀ (cs : List Task) (pid : String) (st : ApiSt) (l : List String),
    lookupItems st.items pid = some l →
    ∃ st2, pushChecklist pid cs l.length st =
      (.ok (assignItems st.ctr cs, st2), itemCallList pid cs) := by
  intro cs
  induction cs with
  | nil =>
    intro pid st l h
    exact ⟨st, by simp [pushChecklist, assignItems, itemCallList]⟩
  | cons c rest ih =>
    intro pid st l h
    cases hn : truthyName c.name with
    | none =>
      obtain ⟨st2, heq⟩ := ih pid st l h
      refine ⟨st2, ?_⟩
      rw [pushChecklist]
      simp only [hn, heq, assignItems, itemCallList, List.nil_append]
    | some nm =>
      have hci : apiCreateItem st pid =
          (some (l ++ [idString st.ctr]),
           ⟨st.ctr + 1, setItems st.items pid (l ++ [idString st.ctr])⟩) := by
        simp [apiCreateItem, h]
      have hbp : byPosition (l ++ [idString st.ctr]) (l.length + 1) =
          some (idString st.ctr) := by
        simp [byPosition, List.get?_concat_length]
      obtain ⟨st2, heq⟩ := ih pid
        ⟨st.ctr + 1, setItems st.items pid (l ++ [idString st.ctr])⟩
        (l ++ [idString st.ctr])
        (by simpa using lookupItems_setItems st.items pid (l ++ [idString st.ctr]))
      refine ⟨st2, ?_⟩
      rw [pushChecklist]
      simp only [hn, hci, hbp]
      rw [show (l ++ [idString st.ctr]).length = l.length + 1 by simp] at heq
      simp only [heq, assignItems, hn, itemCallList, List.singleton_append]

/-- C7: the checklist-item loop of push, run for a freshly created parent
task (whose remote checklist is empty): for each truthy-named child, in
order, `createChecklistItem(parentId, childName)` is posted and the
identifier the service created for that very item is stored into the child's
`checklist_id` — the n-th truthy-named child receives the n-th freshly
created identifier; unnamed/empty-named children consume no position and
receive nothing. -/
theorem pushChecklist_assigns (pid : String) (cs : List Task) (st : ApiSt)
    (h : lookupItems st.items pid = some []) :
    ∃ st2, pushChecklist pid cs 0 st =
      (.ok (assignItems st.ctr cs, st2), itemCallList pid cs) := by
  simpa using pushChecklist_assigns_aux cs pid st [] h

/-- Concrete check of `pushChecklist_assigns`: an empty-named child between
`x` and `y` consumes no position — `x` and `y` get the two fresh
identifiers. -/
theorem pushChecklist_assigns_check :
    lookupItems (ApiSt.mk 7 [("p", [])]).items "p" = some [] ∧
    ∃ st2,
      pushChecklist "p"
        [Task.leaf "x", .mk (some "") (.num 1) [] none none, Task.leaf "y"] 0
        ⟨7, [("p", [])]⟩ =
      (.ok (assignItems 7
          [Task.leaf "x", .mk (some "") (.num 1) [] none none, Task.leaf "y"], st2),
       itemCallList "p"
          [Task.leaf "x", .mk (some "") (.num 1) [] none none, Task.leaf "y"]) :=
  ⟨rfl, pushChecklist_assigns "p" _ _ rfl⟩

theorem optValBEq_refl : (a : Option Val) → optValBEq a a = true
  | none => rfl
  | some v => valBEq_refl v

theorem optValBEq_eq : (a b : Option Val) → optValBEq a b = true → a = b
  | none, none => by simp
  | none, some _ | some _, none => by simp [optValBEq]
  | some v, some w => by
    intro h
    rw [valBEq_eq v w h]

theorem optValMono_trans (a b c : Option Val) (h1 : optValMono a b = true)
    (h2 : optValMono b c = true) : optValMono a c = true := by
  simp only [optValMono, Bool.or_eq_true, Bool.and_eq_true] at h1 h2 ⊢
  rcases h1 with h1 | ⟨ha, hb⟩
  · rw [optValBEq_eq a b h1]
    exact h2
  · rcases h2 with h2 | ⟨hb2, hc⟩
    · rw [← optValBEq_eq b c h2]
      exact Or.inr ⟨ha, hb⟩
    · rw [Option.isSome_iff_exists] at hb
      obtain ⟨x, rfl⟩ := hb
      simp at hb2

mutual
theorem frameOkB_trans : (a b c : Task) → frameOkB a b = true →
    frameOkB b c = true → frameOkB a c = true
  | .mk n1 p1 c1 i1 ci1, .mk n2 p2 c2 i2 ci2, .mk n3 p3 c3 i3 ci3 => by
    intro h1 h2
    simp only [frameOkB, Bool.and_eq_true] at h1 h2 ⊢
    obtain ⟨⟨⟨⟨hn1, hp1⟩, hi1⟩, hc1⟩, hl1⟩ := h1
    obtain ⟨⟨⟨⟨hn2, hp2⟩, hi2⟩, hc2⟩, hl2⟩ := h2
    refine ⟨⟨⟨⟨?_, ?_⟩, optValMono_trans _ _ _ hi1 hi2⟩,
      optValMono_trans _ _ _ hc1 hc2⟩, frameOkList_trans c1 c2 c3 hl1 hl2⟩
    · simp only [beq_iff_eq] at hn1 hn2 ⊢
      rw [hn1, hn2]
    · rw [valBEq_eq p1 p2 hp1]
      exact hp2

theorem frameOkList_trans : (l m n : List Task) → frameOkList l m = true →
    frameOkList m n = true → frameOkList l n = true
  | [], [], [] => by intro h1 h2; rfl
  | [], [], _ :: _ => by intro h1 h2; simp [frameOkList] at h2
  | [], _ :: _, _ => by intro h1 h2; simp [frameOkList] at h1
  | _ :: _, [], _ => by intro h1 h2; simp [frameOkList] at h1
  | _ :: _, _ :: _, [] => by intro h1 h2; simp [frameOkList] at h2
  | a :: l, b :: m, c :: n => by
    intro h1 h2
    simp only [frameOkList, Bool.and_eq_true] at h1 h2 ⊢
    exact ⟨frameOkB_trans a b c h1.1 h2.1, frameOkList_trans l m n h1.2 h2.2⟩
end

theorem idsFresh_setChecklistId (c : Task) (x : Option Val) :
    idsFresh (c.setChecklistId x) = idsFresh c := by
  obtain ⟨n, p, cl, i, ci⟩ := c
  rfl

theorem frameOkB_setChecklistId (c : Task) (x : Val)
    (h : c.checklist_id = none) :
    frameOkB c (c.setChecklistId (some x)) = true := by
  obtain ⟨n, p, cl, i, ci⟩ := c
  simp only [Task.checklist_id] at h
  subst h
  simp [Task.setChecklistId, frameOkB, valBEq_refl, frameOkList_refl, optValMono,
    optValBEq_refl]

theorem pushChecklist_frame : ∀ (cs : List Task) (tid : String) (tn : Nat)
    (st : ApiSt) (ks : List Task) (st2 : ApiSt) (calls : List Call),
    idsFreshKids cs = true →
    pushChecklist tid cs tn st = (.ok (ks, st2), calls) →
    frameOkList cs ks = true ∧ ∀ k ∈ ks, idsFresh k = true := by
  intro cs
  induction cs with
  | nil =>
    intro tid tn st ks st2 calls hf h
    simp only [pushChecklist] at h
    cases h
    exact ⟨rfl, by simp⟩
  | cons c rest ih =>
    intro tid tn st ks st2 calls hf h
    simp only [idsFreshKids, Bool.and_eq_true, Option.isNone_iff_eq_none] at hf
    obtain ⟨⟨hfc1, hfc2⟩, hfr⟩ := hf
    rw [pushChecklist] at h
    cases hn : truthyName c.name with
    | none =>
      rcases hrec : pushChecklist tid rest tn st with ⟨err | ⟨ks2, st3⟩, calls2⟩ <;>
        simp only [hn, hrec] at h <;> simp at h
      obtain ⟨⟨h1, h2⟩, h3⟩ := h
      subst h1
      obtain ⟨hfr1, hfr2⟩ := ih _ _ _ _ _ _ hfr hrec
      refine ⟨by simp [frameOkList, frameOkB_refl, hfr1], ?_⟩
      intro k hk
      rcases List.mem_cons.mp hk with rfl | hk2
      · exact hfc2
      · exact hfr2 k hk2
    | some nm =>
      rcases hci : apiCreateItem st tid with ⟨- | resp, st1⟩
      · simp only [hn, hci] at h
        simp at h
      rcases hbp : byPosition resp (tn + 1) with - | iid
      · simp only [hn, hci, hbp] at h
        simp at h
      rcases hrec : pushChecklist tid rest (tn + 1) st1 with ⟨err | ⟨ks2, st3⟩, calls2⟩ <;>
        simp only [hn, hci, hbp, hrec] at h <;> simp at h
      obtain ⟨⟨h1, h2⟩, h3⟩ := h
      subst h1
      obtain ⟨hfr1, hfr2⟩ := ih _ _ _ _ _ _ hfr hrec
      refine ⟨by simp [frameOkList, frameOkB_setChecklistId c _ hfc1, hfr1], ?_⟩
      intro k hk
      rcases List.mem_cons.mp hk with rfl | hk2
      · rw [idsFresh_setChecklistId]
        exact hfc2
      · exact hfr2 k hk2

theorem idsFreshKids_mem {cs : List Task} {c : Task} (h : idsFreshKids cs = true)
    (hm : c ∈ cs) : idsFresh c = true := by
  induction cs with
  | nil => cases hm
  | cons a r ih =>
    simp only [idsFreshKids, Bool.and_eq_true] at h
    rcases List.mem_cons.mp hm with rfl | hm2
    · exact h.1.2
    · exact ih h.2 hm2

theorem pushAll_frame_of : ∀ (ts : List Task) (st : ApiSt),
    (∀ t ∈ ts, ∀ st' t2 st2 calls, idsFresh t = true →
      Task.push t st' = (.ok (t2, st2), calls) → frameOkB t t2 = true) →
    (∀ t ∈ ts, idsFresh t = true) →
    ∀ ks st2 calls, Task.pushAll ts st = (.ok (ks, st2), calls) →
    frameOkList ts ks = true := by
  intro ts
  induction ts with
  | nil =>
    intro st hIH hf ks st2 calls h
    rw [Task.pushAll] at h
    cases h
    rfl
  | cons t rest ih =>
    intro st hIH hf ks st2 calls h
    rw [Task.pushAll] at h
    rcases hpt : Task.push t st with ⟨err | ⟨t2', st2'⟩, calls1⟩ <;>
      simp only [hpt] at h
    · simp at h
    rcases hpa : Task.pushAll rest st2' with ⟨err2 | ⟨ks', st3⟩, calls2⟩ <;>
      simp only [hpa] at h <;> simp at h
    obtain ⟨⟨h1, h2⟩, h3⟩ := h
    subst h1
    have hft := hIH t (List.mem_cons_self _ _) st t2' st2' calls1
      (hf t (List.mem_cons_self _ _)) hpt
    have hrest := ih st2'
      (fun c hm => hIH c (List.mem_cons_of_mem _ hm))
      (fun c hm => hf c (List.mem_cons_of_mem _ hm)) _ _ _ hpa
    simp [frameOkList, hft, hrest]

theorem push_frame_aux : ∀ (N : Nat) (t : Task) (st : ApiSt) (t2 : Task) (st2 : ApiSt)
    (calls : List Call), Task.nodes t ≤ N → idsFresh t = true →
    Task.push t st = (.ok (t2, st2), calls) → frameOkB t t2 = true := by
  intro N
  induction N with
  | zero =>
    intro t st t2 st2 calls hb
    have := Task.nodes_pos t
    omega
  | succ N ih =>
    intro t st t2 st2 calls hb hf h
    obtain ⟨n, p, cl, i, ci⟩ := t
    have hnodes : Task.nodesList cl ≤ N := by
      have := Task.nodes_eq (.mk n p cl i ci)
      simp only [Task.checklist] at this
      omega
    simp only [idsFresh, Bool.and_eq_true, Option.isNone_iff_eq_none] at hf
    obtain ⟨hfi, hfkids⟩ := hf
    rw [Task.push.eq_def] at h
    cases hn : truthyName (Task.mk n p cl i ci).name with
    | none =>
      simp only [hn] at h
      rcases hpa : Task.pushAll (Task.mk n p cl i ci).checklist st with ⟨res, rcalls⟩
      rcases res with err | ⟨ks2, st3⟩ <;> simp only [hpa] at h <;> simp at h
      obtain ⟨⟨h1, h2⟩, h3⟩ := h
      subst h1
      have hfr : frameOkList cl ks2 = true := by
        refine pushAll_frame_of cl st ?_ ?_ ks2 st3 rcalls
          (by simpa [Task.checklist] using hpa)
        · intro c hm st' c2 st2' calls' hfc hcp
          exact ih c st' c2 st2' calls'
            (le_trans (Task.nodes_mem_le hm) hnodes) hfc hcp
        · intro c hm
          exact idsFreshKids_mem hfkids hm
      simp only [Task.setChecklist, frameOkB, Bool.and_eq_true]
      refine ⟨⟨⟨⟨by simp, valBEq_refl p⟩, ?_⟩, ?_⟩, hfr⟩
      · simp [optValMono, optValBEq_refl]
      · simp [optValMono, optValBEq_refl]
    | some nm =>
      simp only [hn, apiCreateTask] at h
      split at h
      · rename_i ks st2' icalls hpc
        rw [Task.checklist_setId'] at hpc
        simp only [Task.checklist] at hpc
        have hnks : Task.nodesList ks = Task.nodesList cl :=
          pushChecklist_nodesList _ _ _ _ _ _ _ hpc
        obtain ⟨hfr1, hfr2⟩ := pushChecklist_frame _ _ _ _ _ _ _ hfkids hpc
        rcases hpa : Task.pushAll ks st2' with ⟨res2, rcalls⟩
        rcases res2 with err | ⟨ks2, st3⟩ <;>
          simp only [Task.checklist_setChecklist, hpa] at h <;> simp at h
        obtain ⟨⟨h1, h2⟩, h3⟩ := h
        subst h1
        have hfr3 : frameOkList ks ks2 = true := by
          refine pushAll_frame_of ks st2' ?_ hfr2 ks2 st3 rcalls hpa
          intro c hm st' c2 st2'' calls' hfc hcp
          refine ih c st' c2 st2'' calls' ?_ hfc hcp
          have := Task.nodes_mem_le hm
          omega
        have hfr4 : frameOkList cl ks2 = true := frameOkList_trans cl ks ks2 hfr1 hfr3
        subst hfi
        simp only [Task.setId, Task.setChecklist, frameOkB, Bool.and_eq_true]
        refine ⟨⟨⟨⟨by simp, valBEq_refl p⟩, ?_⟩, ?_⟩, hfr4⟩
        · simp [optValMono, optValBEq]
        · simp [optValMono, optValBEq_refl]
      · rename_i err icalls hpc
        simp at h

/-- C8 (amended): for a tree with no pre-existing identifiers, a successful
push changes only the `id` and `checklist_id` fields — every task's name,
priority, and checklist (same children, same order) are preserved — and each
identifier field is either untouched or set exactly once, never reset to
absent and never overwritten. -/
theorem push_frame (t : Task) (st : ApiSt) (t2 : Task) (st2 : ApiSt)
    (calls : List Call) (hf : idsFresh t = true)
    (h : Task.push t st = (.ok (t2, st2), calls)) :
    frameOkB t t2 = true :=
  push_frame_aux (Task.nodes t) t st t2 st2 calls le_rfl hf h

/-- Concrete check of `push_frame` on the tree parsed from `['a']`. -/
theorem push_frame_check :
    idsFresh (.mk none (.num 1) [Task.leaf "a"] none none) = true ∧
    frameOkB (.mk none (.num 1) [Task.leaf "a"] none none)
      (.mk none (.num 1)
        [.mk (some "a") (.num 1) [] (some (.str "srv-id-0")) none] none none) = true :=
  ⟨rfl,
   push_frame (.mk none (.num 1) [Task.leaf "a"] none none) ⟨0, []⟩
     (.mk none (.num 1)
       [.mk (some "a") (.num 1) [] (some (.str "srv-id-0")) none] none none)
     ⟨1, [("srv-id-0", [])]⟩
     [Call.createTask ("a" ++ progressMark) pushNote (.num 1)]
     rfl
     (by
       simp +decide [Task.push, Task.pushAll, pushChecklist, apiCreateTask,
         apiCreateItem, setItems, lookupItems, idString, truthyName, Task.leaf,
         Task.setId, Task.setChecklist, Task.checklist, Task.name, Task.priority])⟩

/-- C8 (counterexample): on a tree that already carries an identifier, push
does overwrite it: the child enters with `id = 'old'` and leaves with the
freshly created `id = 'srv-id-0'`. -/
theorem push_overwrites_preset_id :
    Task.push (.mk none (.num 1)
        [.mk (some "a") (.num 1) [] (some (.str "old")) none] none none) ⟨0, []⟩ =
      (.ok (.mk none (.num 1)
          [.mk (some "a") (.num 1) [] (some (.str "srv-id-0")) none] none none,
        ⟨1, [("srv-id-0", [])]⟩),
       [Call.createTask ("a" ++ progressMark) pushNote (.num 1)]) ∧
    some (Val.str "srv-id-0") ≠ some (Val.str "old") := by
  constructor
  · simp +decide [Task.push, Task.pushAll, pushChecklist, apiCreateTask,
      apiCreateItem, setItems, lookupItems, idString, truthyName,
      Task.setId, Task.setChecklist, Task.checklist, Task.name, Task.priority]
  · simp

/-- C6 (counterexample): pushing the tree parsed from
`["Buy milk", {"Clean house": ["Vacuum", "Dishes", {"priority": 2}]}]` does
not issue 3 `createTask` calls: the recursion visits every named node, so
"Vacuum" and "Dishes" also receive their own `createTask` calls — 4 in
total. -/
theorem push_example_not_three_creates :
    Task.init none (.vlist [.str "Buy milk",
        .vmap [("Clean house",
          .vlist [.str "Vacuum", .str "Dishes", .vmap [("priority", .num 2)]])]]) =
      .ok (.mk none (.num 1)
        [Task.leaf "Buy milk",
         .mk (some "Clean house") (.num 2)
           [Task.leaf "Vacuum", Task.leaf "Dishes"] none none] none none) ∧
    countCreates (Task.push (.mk none (.num 1)
        [Task.leaf "Buy milk",
         .mk (some "Clean house") (.num 2)
           [Task.leaf "Vacuum", Task.leaf "Dishes"] none none] none none) ⟨0, []⟩).2 ≠ 3 := by
  constructor
  · simp [Task.init, Task.initLoop, isValidPriority, Task.setPriority, Task.leaf,
      Task.addChild]
  · simp +decide [Task.push, Task.pushAll, pushChecklist, apiCreateTask,
      apiCreateItem, setItems, lookupItems, idString, truthyName, Task.leaf,
      Task.setId, Task.setChecklist, Task.setChecklistId, Task.checklist,
      Task.name, Task.priority, byPosition, List.get?, countCreates]

/-- C6 (amended): the end-to-end example: the document parses to an unnamed
root with children "Buy milk" and "Clean house" (priority 2, subtasks
"Vacuum" and "Dishes"); pushing issues exactly 4 `createTask` calls — one
per named task — with "Vacuum" and "Dishes" additionally receiving
`createChecklistItem` calls under "Clean house"'s task; the re-serialized
document carries a non-absent `id` for every named task (including "Vacuum"
and "Dishes") and a non-absent `checklist_id` for "Vacuum" and "Dishes". -/
theorem push_example_end_to_end :
    Task.init none (.vlist [.str "Buy milk",
        .vmap [("Clean house",
          .vlist [.str "Vacuum", .str "Dishes", .vmap [("priority", .num 2)]])]]) =
      .ok (.mk none (.num 1)
        [Task.leaf "Buy milk",
         .mk (some "Clean house") (.num 2)
           [Task.leaf "Vacuum", Task.leaf "Dishes"] none none] none none) ∧
    Task.push (.mk none (.num 1)
        [Task.leaf "Buy milk",
         .mk (some "Clean house") (.num 2)
           [Task.leaf "Vacuum", Task.leaf "Dishes"] none none] none none) ⟨0, []⟩ =
      (.ok (.mk none (.num 1)
          [.mk (some "Buy milk") (.num 1) [] (some (.str "srv-id-0")) none,
           .mk (some "Clean house") (.num 2)
             [.mk (some "Vacuum") (.num 1) []
                (some (.str "srv-id-4")) (some (.str "srv-id-2")),
              .mk (some "Dishes") (.num 1) []
                (some (.str "srv-id-5")) (some (.str "srv-id-3"))]
             (some (.str "srv-id-1")) none] none none,
        ⟨6, [("srv-id-0", []), ("srv-id-1", ["srv-id-2", "srv-id-3"]),
             ("srv-id-4", []), ("srv-id-5", [])]⟩),
       [Call.createTask ("Buy milk" ++ progressMark) pushNote (.num 1),
        Call.createTask ("Clean house" ++ progressMark) pushNote (.num 2),
        Call.createChecklistItem "srv-id-1" "Vacuum",
        Call.createChecklistItem "srv-id-1" "Dishes",
        Call.createTask ("Vacuum" ++ progressMark) pushNote (.num 1),
        Call.createTask ("Dishes" ++ progressMark) pushNote (.num 1)]) ∧
    countCreates
      [Call.createTask ("Buy milk" ++ progressMark) pushNote (.num 1),
       Call.createTask ("Clean house" ++ progressMark) pushNote (.num 2),
       Call.createChecklistItem "srv-id-1" "Vacuum",
       Call.createChecklistItem "srv-id-1" "Dishes",
       Call.createTask ("Vacuum" ++ progressMark) pushNote (.num 1),
       Call.createTask ("Dishes" ++ progressMark) pushNote (.num 1)] = 4 ∧
    Task.toList (.mk none (.num 1)
        [.mk (some "Buy milk") (.num 1) [] (some (.str "srv-id-0")) none,
         .mk (some "Clean house") (.num 2)
           [.mk (some "Vacuum") (.num 1) []
              (some (.str "srv-id-4")) (some (.str "srv-id-2")),
            .mk (some "Dishes") (.num 1) []
              (some (.str "srv-id-5")) (some (.str "srv-id-3"))]
           (some (.str "srv-id-1")) none] none none) =
      [.vmap [("Buy milk", .vlist
          [.vmap [("id", .str "srv-id-0")], .vmap [("priority", .num 1)]])],
       .vmap [("Clean house", .vlist
          [.vmap [("id", .str "srv-id-1")], .vmap [("priority", .num 2)],
           .vmap [("Vacuum", .vlist
              [.vmap [("id", .str "srv-id-4")],
               .vmap [("checklist_id", .str "srv-id-2")],
               .vmap [("priority", .num 1)]])],
           .vmap [("Dishes", .vlist
              [.vmap [("id", .str "srv-id-5")],
               .vmap [("checklist_id", .str "srv-id-3")],
               .vmap [("priority", .num 1)]])]])]] := by
  refine ⟨?_, ?_, rfl, ?_⟩
  · simp [Task.init, Task.initLoop, isValidPriority, Task.setPriority, Task.leaf,
      Task.addChild]
  · simp +decide [Task.push, Task.pushAll, pushChecklist, apiCreateTask,
      apiCreateItem, setItems, lookupItems, idString, truthyName, Task.leaf,
      Task.setId, Task.setChecklist, Task.setChecklistId, Task.checklist,
      Task.name, Task.priority, byPosition, List.get?]
  · simp +decide [Task.toList, Task.childEntries, propEntry, priorityEntryOf,
      Val.truthy, truthyName, Task.name]
